import Mathlib

/-!
Formal model of the task-assignee module of the Vikunja API
(pkg/models/task_assignees.go): single add and single remove of an
assignee, and the bulk replace-the-whole-assignee-set operation together
with the session (transaction) handling of BulkAssignees.Create.

Machine integers (int64 ids) are modelled as Int; no arithmetic is
performed on them, only equality, so no overflow handling is needed.
-/

namespace VikunjaAssignees

/-- Errors surfaced by the modelled operations, mirroring the error types
used by the Go code. ErrUserDoesNotHaveAccessToList carries the list id
and the user id, exactly as in addNewAssigneeByID. -/
inductive ModelError where
  | userDoesNotHaveAccessToList (listID : Int) (userID : Int)
  | userNotFound (userID : Int)
  | taskNotFound (taskID : Int)
  | listNotFound (listID : Int)
deriving DecidableEq, Repr

/-- Modelled from the spec: the external collaborators the module consumes
as opaque capabilities (spec sections 1 and 6) — user lookup
(user.GetUserByID), the container access predicate (list.CanRead), task
lookup (GetTaskByIDSimple / GetListSimplByTaskID) and list lookup
(list.GetSimpleByID).  Their bodies are not part of this module; only
their observable answers matter here. -/
structure Env where
  userExists : Int → Bool
  canRead : Int → Int → Bool
  taskExists : Int → Bool
  listOfTask : Int → Int
  listExists : Int → Bool

/-- Persistent state: the task_assignees table as a list of
(task id, user id) rows — the autoincrement primary key makes every row
distinct, so a list models the table faithfully, duplicates included —
plus a log of the list ids passed to updateListLastUpdated.  Each log
entry is one touch of a container's last-modified timestamp. -/
structure DB where
  rows : List (Int × Int)
  touches : List Int
deriving DecidableEq, Repr

/-- The fields of the Go Task struct that this module reads or writes:
its id, its parent list id, and the Assignees slice mutated as a side
effect of reconciliation. -/
structure Task where
  id : Int
  listID : Int
  assignees : List Int
deriving DecidableEq, Repr

/-- The two delete statements issued through the xorm session in
updateTaskAssignees: delete every row of a task (the fast path), or
delete the rows of a task whose user id is in a given list. -/
inductive DeleteOp where
  | byTask (taskID : Int)
  | byUsersAndTask (userIDs : List Int) (taskID : Int)
deriving DecidableEq, Repr

/-- Modelled from the spec: the transaction scope of BulkAssignees.Create
(spec sections 4.4 and 5 — all deltas commit together or none do).  The
session records its pending delete statements; Commit applies them to the
global state and Rollback discards them.  Note that only the two delete
statements of updateTaskAssignees go through the session in the source;
inserts and timestamp touches use the global engine x directly. -/
structure Session where
  pendingDeletes : List DeleteOp
deriving DecidableEq, Repr

/-- Effect of one session delete statement on the table rows. -/
def applyDelete (rows : List (Int × Int)) : DeleteOp → List (Int × Int)
  | DeleteOp.byTask tid => rows.filter (fun r => !(r.1 == tid))
  | DeleteOp.byUsersAndTask uids tid =>
      rows.filter (fun r => !(uids.contains r.2 && r.1 == tid))

/-- Session.Commit: apply the pending deletes, in order, to the table. -/
def Session.commit (s : Session) (db : DB) : DB :=
  { db with rows := s.pendingDeletes.foldl applyDelete db.rows }

/-- Modelled from the spec: updateListLastUpdated touches the
last-modified marker of the given list (spec section 4.4); its body lives
outside this module, so its effect is recorded as one log entry. -/
def updateListLastUpdated (db : DB) (listID : Int) : DB :=
  { db with touches := db.touches ++ [listID] }

/-- getRawTaskAssigneesForTasks restricted to one task: the user ids of
the rows of the task, inner-joined with the users table (a row whose user
does not exist is dropped by the join). -/
def getRawTaskAssigneesForTasks (env : Env) (db : DB) (taskID : Int) :
    List Int :=
  (db.rows.filter (fun r => r.1 == taskID && env.userExists r.2)).map
    (fun r => r.2)

/-- addNewAssigneeByID: look the user up, check that the user can read the
given list, insert the (task, user) row through the global engine, then
touch the last-modified marker of the task's list (t.ListID — which is
not always the id of the list that was checked: TaskAssginee.Create
passes a Task value whose ListID field is zero). -/
def addNewAssigneeByID (env : Env) (db : DB) (t : Task) (listID : Int)
    (newAssigneeID : Int) : Except ModelError DB :=
  if !env.userExists newAssigneeID then
    Except.error (ModelError.userNotFound newAssigneeID)
  else if !env.canRead listID newAssigneeID then
    Except.error (ModelError.userDoesNotHaveAccessToList listID newAssigneeID)
  else
    Except.ok (updateListLastUpdated
      { db with rows := db.rows ++ [(t.id, newAssigneeID)] } t.listID)

/-- setTaskAssignees: store the new assignee list on the task, using nil
(here: the empty list) when it is empty. -/
def setTaskAssignees (t : Task) (assignees : List Int) : Task :=
  if assignees.isEmpty then { t with assignees := [] }
  else { t with assignees := assignees }

/-- The add loop at the end of updateTaskAssignees: walk the requested
assignees in order, skip the ones already assigned (membership in the
loaded current list), add each remaining one through addNewAssigneeByID,
and stop at the first error.  The database threads through; on an error
the state reached so far is returned together with the error. -/
def addAssigneesLoop (env : Env) (t : Task) (current : List Int) :
    List Int → DB → DB × Option ModelError
  | [], db => (db, none)
  | u :: rest, db =>
    if current.contains u then addAssigneesLoop env t current rest db
    else
      match addNewAssigneeByID env db t t.listID u with
      | Except.error e => (db, some e)
      | Except.ok db1 => addAssigneesLoop env t current rest db1

/-- updateTaskAssignees: load the current assignees, take the fast delete
path when the request is empty and something is assigned, do nothing when
both are empty, and otherwise queue the delete of the no-longer-wanted
rows on the session, fetch the list, add the new assignees one by one
through the global engine, and finally touch the list's last-modified
marker once more. -/
def updateTaskAssignees (env : Env) (db : DB) (s : Session) (t : Task)
    (assignees : List Int) : DB × Session × Task × Option ModelError :=
  let current := getRawTaskAssigneesForTasks env db t.id
  let t1 : Task := { t with assignees := current }
  if assignees.isEmpty && !current.isEmpty then
    let s1 : Session :=
      { pendingDeletes := s.pendingDeletes ++ [DeleteOp.byTask t1.id] }
    (db, s1, setTaskAssignees t1 assignees, none)
  else if assignees.isEmpty && current.isEmpty then
    (db, s, t1, none)
  else
    let assigneesToDelete := current.filter (fun old => !assignees.contains old)
    let s1 : Session :=
      if !assigneesToDelete.isEmpty then
        { pendingDeletes :=
            s.pendingDeletes ++ [DeleteOp.byUsersAndTask assigneesToDelete t1.id] }
      else s
    if !env.listExists t1.listID then
      (db, s1, t1, some (ModelError.listNotFound t1.listID))
    else
      match addAssigneesLoop env t1 current assignees db with
      | (db1, some e) => (db1, s1, t1, some e)
      | (db1, none) =>
          (updateListLastUpdated db1 t1.listID, s1, setTaskAssignees t1 assignees,
            none)

/-- BulkAssignees.Create: open a session, load the task and its current
assignees, run updateTaskAssignees against the session, roll the session
back on error (discarding only the queued deletes — inserts and timestamp
touches went through the global engine) and commit it on success. -/
def BulkAssigneesCreate (env : Env) (db : DB) (taskID : Int)
    (assignees : List Int) : DB × Option ModelError :=
  let s : Session := { pendingDeletes := [] }
  if !env.taskExists taskID then (db, some (ModelError.taskNotFound taskID))
  else
    let task : Task := { id := taskID, listID := env.listOfTask taskID,
                         assignees := [] }
    let pre := getRawTaskAssigneesForTasks env db taskID
    let task := { task with assignees := task.assignees ++ pre }
    match updateTaskAssignees env db s task assignees with
    | (db1, _, _, some e) => (db1, some e)
    | (db1, s1, _, none) => (s1.commit db1, none)

/-- Modelled from the spec: updateListByTaskID resolves the task's parent
list and touches its last-modified marker; it fails when the task does
not exist.  Its body lives outside this module. -/
def updateListByTaskID (env : Env) (db : DB) (taskID : Int) :
    DB × Option ModelError :=
  if !env.taskExists taskID then (db, some (ModelError.taskNotFound taskID))
  else (updateListLastUpdated db (env.listOfTask taskID), none)

/-- TaskAssginee.Delete: delete the matching (task, user) rows through the
global engine — a delete that matches nothing is not an error — then
update the parent list's last-modified marker via updateListByTaskID. -/
def TaskAssgineeDelete (env : Env) (db : DB) (taskID userID : Int) :
    DB × Option ModelError :=
  let db1 : DB :=
    { db with rows := db.rows.filter (fun r => !(r.1 == taskID && r.2 == userID)) }
  updateListByTaskID env db1 taskID

/-- Modelled from the spec: GetListSimplByTaskID resolves the parent list
of a task, failing when the task or the list does not exist. -/
def GetListSimplByTaskID (env : Env) (taskID : Int) : Except ModelError Int :=
  if !env.taskExists taskID then Except.error (ModelError.taskNotFound taskID)
  else if !env.listExists (env.listOfTask taskID) then
    Except.error (ModelError.listNotFound (env.listOfTask taskID))
  else Except.ok (env.listOfTask taskID)

/-- TaskAssginee.Create: resolve the task's list, then add through
addNewAssigneeByID.  The Task value it builds carries only the task id —
its ListID field is the zero value, so the timestamp touch inside
addNewAssigneeByID hits list 0. -/
def TaskAssgineeCreate (env : Env) (db : DB) (taskID userID : Int) :
    DB × Option ModelError :=
  match GetListSimplByTaskID env taskID with
  | Except.error e => (db, some e)
  | Except.ok listID =>
    match addNewAssigneeByID env db
        { id := taskID, listID := 0, assignees := [] } listID userID with
    | Except.error e => (db, some e)
    | Except.ok db1 => (db1, none)

/-- The persisted assignment set of a task: the user ids of its rows. -/
def assignedUsers (db : DB) (taskID : Int) : List Int :=
  (db.rows.filter (fun r => r.1 == taskID)).map (fun r => r.2)

/-- The remove-delta computed by updateTaskAssignees: the current
assignees that are not in the requested list. -/
def toRemoveOf (env : Env) (db : DB) (taskID : Int) (S : List Int) :
    List Int :=
  (getRawTaskAssigneesForTasks env db taskID).filter (fun old => !S.contains old)

/-- The add-delta applied by the add loop: the requested assignees that
are not currently assigned. -/
def toAddOf (env : Env) (db : DB) (taskID : Int) (S : List Int) :
    List Int :=
  S.filter (fun u => !(getRawTaskAssigneesForTasks env db taskID).contains u)

/-- A concrete environment for test evaluations: task 1 lives in list 10,
users 1, 2 and 3 exist, and user 2 is the one denied read access. -/
def envT : Env :=
  { userExists := fun u => u == 1 || u == 2 || u == 3
  , canRead := fun l u => l == 10 && !(u == 2)
  , taskExists := fun i => i == 1
  , listOfTask := fun _ => 10
  , listExists := fun l => l == 10 }

/-! ### Helper lemmas -/

/-- Membership in the joined current-assignee read: a user is in the loaded
current set exactly when a row for the task exists and the user exists. -/
theorem mem_getRaw {env : Env} {db : DB} {taskID u : Int} :
    u ∈ getRawTaskAssigneesForTasks env db taskID ↔
      (taskID, u) ∈ db.rows ∧ env.userExists u = true := by
  simp only [getRawTaskAssigneesForTasks, List.mem_map, List.mem_filter,
    Bool.and_eq_true, beq_iff_eq]
  constructor
  · rintro ⟨⟨a, b⟩, ⟨hr, h1, h2⟩, rfl⟩
    simp only at h1 h2 ⊢
    subst h1
    exact ⟨hr, h2⟩
  · rintro ⟨hr, hu⟩
    exact ⟨(taskID, u), ⟨hr, rfl, hu⟩, rfl⟩

/-- Membership in the persisted assignment set of a task. -/
theorem mem_assignedUsers {db : DB} {taskID u : Int} :
    u ∈ assignedUsers db taskID ↔ (taskID, u) ∈ db.rows := by
  simp only [assignedUsers, List.mem_map, List.mem_filter, beq_iff_eq]
  constructor
  · rintro ⟨⟨a, b⟩, ⟨hr, h1⟩, rfl⟩
    simp only at h1 ⊢
    subst h1
    exact hr
  · intro hr
    exact ⟨(taskID, u), ⟨hr, rfl⟩, rfl⟩

/-- When every not-yet-assigned requested user exists and passes the
access check, the add loop succeeds and its effect is exactly one appended
row and one appended timestamp touch per requested user that is not
already current. -/
theorem addAssigneesLoop_eq (env : Env) (t : Task) (current : List Int)
    (us : List Int) :
    ∀ db : DB,
      (∀ u ∈ us, u ∉ current →
        env.userExists u = true ∧ env.canRead t.listID u = true) →
      addAssigneesLoop env t current us db =
        ({ rows := db.rows ++
             (us.filter (fun u => !current.contains u)).map
               (fun u => (t.id, u)),
           touches := db.touches ++
             List.replicate
               ((us.filter (fun u => !current.contains u)).length)
               t.listID }, none) := by
  induction us with
  | nil => intro db _; simp [addAssigneesLoop]
  | cons v rest ih =>
    intro db h
    have h' : ∀ u ∈ rest, u ∉ current →
        env.userExists u = true ∧ env.canRead t.listID u = true :=
      fun u hu => h u (List.mem_cons_of_mem v hu)
    by_cases hc : v ∈ current
    · have hcb : current.contains v = true := by simpa using hc
      have hstep : addAssigneesLoop env t current (v :: rest) db =
          addAssigneesLoop env t current rest db := by
        simp [addAssigneesLoop, hc]
      rw [hstep, ih db h']
      simp [List.filter_cons, hc]
    · have hcb : current.contains v = false := by simpa using hc
      obtain ⟨hv, hr⟩ := h v (List.mem_cons_self v rest) hc
      have hstep : addAssigneesLoop env t current (v :: rest) db =
          addAssigneesLoop env t current rest
            (updateListLastUpdated
              { db with rows := db.rows ++ [(t.id, v)] } t.listID) := by
        simp [addAssigneesLoop, hc, addNewAssigneeByID, hv, hr]
      rw [hstep, ih _ h']
      simp [updateListLastUpdated, List.filter_cons, hc,
        List.replicate_succ, List.append_assoc]

/-- The general path of updateTaskAssignees (non-empty request, list
exists, all new users pass the checks): the remove-delta is queued on the
session, every add-delta row is appended together with one timestamp
touch, and one final timestamp touch closes the call. -/
theorem updateTaskAssignees_general (env : Env) (db : DB) (s : Session)
    (t : Task) (S : List Int)
    (hSe : S.isEmpty = false)
    (hlist : env.listExists t.listID = true)
    (hok : ∀ u ∈ S, u ∉ getRawTaskAssigneesForTasks env db t.id →
      env.userExists u = true ∧ env.canRead t.listID u = true) :
    updateTaskAssignees env db s t S =
      ({ rows := db.rows ++
           (S.filter (fun u =>
             !(getRawTaskAssigneesForTasks env db t.id).contains u)).map
             (fun u => (t.id, u)),
         touches := db.touches ++
           List.replicate
             ((S.filter (fun u =>
               !(getRawTaskAssigneesForTasks env db t.id).contains u)).length)
             t.listID ++ [t.listID] },
       (if !((getRawTaskAssigneesForTasks env db t.id).filter
           (fun old => !S.contains old)).isEmpty then
         { pendingDeletes := s.pendingDeletes ++
             [DeleteOp.byUsersAndTask
               ((getRawTaskAssigneesForTasks env db t.id).filter
                 (fun old => !S.contains old)) t.id] }
        else s),
       { t with assignees := S }, none) := by
  have hloop := addAssigneesLoop_eq env ({ t with assignees := getRawTaskAssigneesForTasks env db t.id }) (getRawTaskAssigneesForTasks env db t.id) S db hok
  rw [updateTaskAssignees]
  simp only [hSe, Bool.false_and, Bool.false_eq_true, if_false]
  rw [hloop]
  simp [hlist, setTaskAssignees, hSe, updateListLastUpdated,
    List.append_assoc]

/-- The full effect of a bulk replace whose inputs satisfy the success
preconditions (task and its list exist, no dangling rows for the task,
every desired user exists and passes the access check): the call
succeeds, the rows become the old rows minus the remove-delta plus the
add-delta, and the timestamp log grows by one touch per inserted row plus
one closing touch — or not at all when the desired set is empty. -/
theorem BulkAssigneesCreate_spec (env : Env) (db : DB) (taskID : Int)
    (S : List Int)
    (htask : env.taskExists taskID = true)
    (hlist : env.listExists (env.listOfTask taskID) = true)
    (hrows : ∀ r ∈ db.rows, r.1 = taskID → env.userExists r.2 = true)
    (hS : ∀ u ∈ S, env.userExists u = true ∧
      env.canRead (env.listOfTask taskID) u = true) :
    BulkAssigneesCreate env db taskID S =
      ({ rows := db.rows.filter (fun r =>
            !((toRemoveOf env db taskID S).contains r.2 && r.1 == taskID)) ++
          (toAddOf env db taskID S).map (fun u => (taskID, u)),
         touches := db.touches ++
           (if S.isEmpty then [] else
             List.replicate ((toAddOf env db taskID S).length)
                 (env.listOfTask taskID) ++
               [env.listOfTask taskID]) }, none) := by
  by_cases hSe : S.isEmpty = true
  · have hS0 : S = [] := List.isEmpty_iff.mp hSe
    subst hS0
    have hta : toAddOf env db taskID [] = [] := by simp [toAddOf]
    by_cases hcur : getRawTaskAssigneesForTasks env db taskID = []
    · have htr : toRemoveOf env db taskID [] = [] := by
        simp [toRemoveOf, hcur]
      rw [hta, htr]
      simp [BulkAssigneesCreate, updateTaskAssignees, htask, hcur,
        Session.commit]
    · have hcur' : (getRawTaskAssigneesForTasks env db taskID).isEmpty =
          false := by
        simpa using hcur
      have htr : toRemoveOf env db taskID [] =
          getRawTaskAssigneesForTasks env db taskID := by
        simp [toRemoveOf]
      have hlhs : BulkAssigneesCreate env db taskID [] =
          ({ rows := db.rows.filter (fun r => !(r.1 == taskID)),
             touches := db.touches }, none) := by
        simp [BulkAssigneesCreate, updateTaskAssignees, htask, hcur',
          Session.commit, applyDelete, setTaskAssignees]
      rw [hlhs, hta, htr]
      have hcongr : db.rows.filter (fun r => !(r.1 == taskID)) =
          db.rows.filter (fun r =>
            !((getRawTaskAssigneesForTasks env db taskID).contains r.2 &&
              r.1 == taskID)) := by
        apply List.filter_congr
        intro r hr
        by_cases h1 : r.1 = taskID
        · have hu : env.userExists r.2 = true := hrows r hr h1
          have hmem : r.2 ∈ getRawTaskAssigneesForTasks env db taskID := by
            apply mem_getRaw.mpr
            refine ⟨?_, hu⟩
            have hpair : (taskID, r.2) = r := by
              obtain ⟨a, b⟩ := r
              simp only at h1 ⊢
              rw [h1]
            rwa [hpair]
          simp [h1, hmem]
        · simp [h1]
      rw [hcongr]
      simp
  · have hSe' : S.isEmpty = false := Bool.eq_false_iff.mpr hSe
    have hok : ∀ u ∈ S, u ∉ getRawTaskAssigneesForTasks env db taskID →
        env.userExists u = true ∧
        env.canRead (env.listOfTask taskID) u = true :=
      fun u hu _ => hS u hu
    have hupd := updateTaskAssignees_general env db
      { pendingDeletes := [] }
      { id := taskID, listID := env.listOfTask taskID,
        assignees := getRawTaskAssigneesForTasks env db taskID }
      S hSe' hlist hok
    have hlhs : BulkAssigneesCreate env db taskID S =
        ((if !((getRawTaskAssigneesForTasks env db taskID).filter
            (fun old => !S.contains old)).isEmpty then
          ({ pendingDeletes := [DeleteOp.byUsersAndTask
             ((getRawTaskAssigneesForTasks env db taskID).filter
               (fun old => !S.contains old)) taskID] } : Session)
         else { pendingDeletes := [] }).commit
          { rows := db.rows ++
              (S.filter (fun u =>
                !(getRawTaskAssigneesForTasks env db taskID).contains u)).map
                (fun u => (taskID, u)),
            touches := db.touches ++
              List.replicate
                ((S.filter (fun u =>
                  !(getRawTaskAssigneesForTasks env db taskID).contains u)).length)
                (env.listOfTask taskID) ++ [env.listOfTask taskID] }, none) := by
      simp only [BulkAssigneesCreate, htask, Bool.not_true,
        Bool.false_eq_true, if_false, List.nil_append]
      rw [hupd]
      simp
    rw [hlhs]
    by_cases htd : ((getRawTaskAssigneesForTasks env db taskID).filter
        (fun old => !S.contains old)).isEmpty = true
    · have hfil : (getRawTaskAssigneesForTasks env db taskID).filter
          (fun old => !S.contains old) = [] := List.isEmpty_iff.mp htd
      have htd0 : toRemoveOf env db taskID S = [] := by
        rw [toRemoveOf]
        exact hfil
      have hnone : ¬∃ x ∈ getRawTaskAssigneesForTasks env db taskID,
          x ∉ S := by
        rintro ⟨x, hx, hxS⟩
        have hxmem : x ∈ (getRawTaskAssigneesForTasks env db taskID).filter
            (fun old => !S.contains old) := by
          simp [List.mem_filter, hx, hxS]
        rw [hfil] at hxmem
        exact absurd hxmem (List.not_mem_nil x)
      rw [htd0]
      simp [Session.commit, toAddOf, hSe', List.append_assoc, hnone]
    · have htd' : ((getRawTaskAssigneesForTasks env db taskID).filter
          (fun old => !S.contains old)).isEmpty = false :=
        Bool.eq_false_iff.mpr htd
      have hins : ((S.filter (fun u =>
          !(getRawTaskAssigneesForTasks env db taskID).contains u)).map
            (fun u => (taskID, u))).filter (fun r =>
              !((toRemoveOf env db taskID S).contains r.2 && r.1 == taskID)) =
          (S.filter (fun u =>
            !(getRawTaskAssigneesForTasks env db taskID).contains u)).map
            (fun u => (taskID, u)) := by
        apply List.filter_eq_self.mpr
        intro r hrm
        obtain ⟨u, hu, rfl⟩ := List.mem_map.mp hrm
        have huS : u ∈ S := (List.mem_filter.mp hu).1
        have hnotrem : u ∉ toRemoveOf env db taskID S := by
          intro hmem
          have hh := (List.mem_filter.mp hmem).2
          simp only [Bool.not_eq_eq_eq_not, Bool.not_true] at hh
          exact absurd huS (by simpa using hh)
        simp [hnotrem]
      rw [Session.commit]
      simp only [htd', Bool.not_false, if_true, List.foldl_cons,
        List.foldl_nil, applyDelete]
      rw [List.filter_append]
      have hpredeq : (fun (r : Int × Int) =>
          !(((getRawTaskAssigneesForTasks env db taskID).filter
            (fun old => !S.contains old)).contains r.2 && r.1 == taskID)) =
          (fun (r : Int × Int) =>
            !((toRemoveOf env db taskID S).contains r.2 && r.1 == taskID)) := by
        rw [toRemoveOf]
      rw [hpredeq, hins]
      simp [toAddOf, hSe', List.append_assoc]

/-- A desired user is never in the remove-delta. -/
theorem not_mem_toRemoveOf {env : Env} {db : DB} {taskID : Int}
    {S : List Int} {u : Int} (huS : u ∈ S) :
    u ∉ toRemoveOf env db taskID S := by
  intro hmem
  rw [toRemoveOf] at hmem
  have h2 := (List.mem_filter.mp hmem).2
  simp only [Bool.not_eq_eq_eq_not, Bool.not_true] at h2
  exact absurd huS (by simpa using h2)

/-- Under the success preconditions, a pair (taskID, u) is persisted after
the bulk replace exactly when u is in the desired list. -/
theorem bulk_mem_iff (env : Env) (db : DB) (taskID : Int) (S : List Int)
    (htask : env.taskExists taskID = true)
    (hlist : env.listExists (env.listOfTask taskID) = true)
    (hrows : ∀ r ∈ db.rows, r.1 = taskID → env.userExists r.2 = true)
    (hS : ∀ u ∈ S, env.userExists u = true ∧
      env.canRead (env.listOfTask taskID) u = true) (u : Int) :
    (taskID, u) ∈ (BulkAssigneesCreate env db taskID S).1.rows ↔ u ∈ S := by
  rw [BulkAssigneesCreate_spec env db taskID S htask hlist hrows hS]
  constructor
  · intro hmem
    rcases List.mem_append.mp hmem with hold | hnew
    · have hr : (taskID, u) ∈ db.rows := List.mem_of_mem_filter hold
      have hp := List.of_mem_filter hold
      have hu : env.userExists u = true := hrows _ hr rfl
      have hcur : u ∈ getRawTaskAssigneesForTasks env db taskID :=
        mem_getRaw.mpr ⟨hr, hu⟩
      by_contra hnS
      have hmemR : u ∈ toRemoveOf env db taskID S := by
        rw [toRemoveOf]
        apply List.mem_filter.mpr
        refine ⟨hcur, ?_⟩
        simp [hnS]
      simp at hp
      exact hp hmemR
    · obtain ⟨v, hv, heq⟩ := List.mem_map.mp hnew
      have hvu : v = u := by
        have h2 := congrArg Prod.snd heq
        simpa using h2
      subst hvu
      rw [toAddOf] at hv
      exact (List.mem_filter.mp hv).1
  · intro huS
    apply List.mem_append.mpr
    by_cases hcur : u ∈ getRawTaskAssigneesForTasks env db taskID
    · left
      obtain ⟨hr, _⟩ := mem_getRaw.mp hcur
      apply List.mem_filter.mpr
      refine ⟨hr, ?_⟩
      have hnrem : u ∉ toRemoveOf env db taskID S := not_mem_toRemoveOf huS
      simp [hnrem]
    · right
      apply List.mem_map.mpr
      refine ⟨u, ?_, rfl⟩
      rw [toAddOf]
      apply List.mem_filter.mpr
      refine ⟨huS, ?_⟩
      simp [hcur]

/-- Under the success preconditions, the no-dangling-rows invariant is
preserved by a bulk replace. -/
theorem bulk_rows_users (env : Env) (db : DB) (taskID : Int) (S : List Int)
    (htask : env.taskExists taskID = true)
    (hlist : env.listExists (env.listOfTask taskID) = true)
    (hrows : ∀ r ∈ db.rows, r.1 = taskID → env.userExists r.2 = true)
    (hS : ∀ u ∈ S, env.userExists u = true ∧
      env.canRead (env.listOfTask taskID) u = true) :
    ∀ r ∈ (BulkAssigneesCreate env db taskID S).1.rows, r.1 = taskID →
      env.userExists r.2 = true := by
  rw [BulkAssigneesCreate_spec env db taskID S htask hlist hrows hS]
  intro r hr h1
  rcases List.mem_append.mp hr with hold | hnew
  · exact hrows r (List.mem_of_mem_filter hold) h1
  · obtain ⟨v, hv, rfl⟩ := List.mem_map.mp hnew
    rw [toAddOf] at hv
    exact (hS v (List.mem_filter.mp hv).1).1

/-- Under the success preconditions, the current set loaded after a bulk
replace is, as a set, the desired list. -/
theorem mem_getRaw_bulk (env : Env) (db : DB) (taskID : Int) (S : List Int)
    (htask : env.taskExists taskID = true)
    (hlist : env.listExists (env.listOfTask taskID) = true)
    (hrows : ∀ r ∈ db.rows, r.1 = taskID → env.userExists r.2 = true)
    (hS : ∀ u ∈ S, env.userExists u = true ∧
      env.canRead (env.listOfTask taskID) u = true) (u : Int) :
    u ∈ getRawTaskAssigneesForTasks env
      (BulkAssigneesCreate env db taskID S).1 taskID ↔ u ∈ S := by
  rw [mem_getRaw]
  constructor
  · rintro ⟨hr, _⟩
    exact (bulk_mem_iff env db taskID S htask hlist hrows hS u).mp hr
  · intro huS
    exact ⟨(bulk_mem_iff env db taskID S htask hlist hrows hS u).mpr huS,
      (hS u huS).1⟩

/-- C1: the all-or-nothing guarantee fails on the code.  With an empty
current set and desired set [1, 2] where user 2 is denied access, the bulk
replace errors out and rolls the session back, yet user 1's insert — which
went through the global engine, not the session — survives: the persisted
set after the failed call is [(1, 1)], not the original empty set, and the
container timestamp was already touched once. -/
theorem C1_partialAddSurvives :
    BulkAssigneesCreate envT { rows := [], touches := [] } 1 [1, 2] =
      ({ rows := [(1, 1)], touches := [10] },
        some (ModelError.userDoesNotHaveAccessToList 10 2)) ∧
    ({ rows := [], touches := [] } : DB).rows = [] := by
  exact ⟨by decide, rfl⟩

/-- C7: when the access check denies the principal, the add fails with the
access-denied error carrying the container (list) identifier and the
principal identifier; the single-add operation leaves the database
untouched, and inside the bulk add loop no row for the denied principal is
ever inserted. -/
theorem C7_accessDenied (env : Env) (u : Int)
    (huser : env.userExists u = true) :
    (∀ (db : DB) (t : Task) (listID : Int), env.canRead listID u = false →
      addNewAssigneeByID env db t listID u =
        Except.error (ModelError.userDoesNotHaveAccessToList listID u)) ∧
    (∀ (db : DB) (taskID : Int), env.taskExists taskID = true →
      env.listExists (env.listOfTask taskID) = true →
      env.canRead (env.listOfTask taskID) u = false →
      TaskAssgineeCreate env db taskID u =
        (db, some (ModelError.userDoesNotHaveAccessToList
          (env.listOfTask taskID) u))) ∧
    (∀ (t : Task) (current us : List Int) (db : DB),
      env.canRead t.listID u = false →
      (addAssigneesLoop env t current us db).1.rows.count (t.id, u) =
        db.rows.count (t.id, u)) := by
  refine ⟨?_, ?_, ?_⟩
  · intro db t listID hdenied
    simp [addNewAssigneeByID, huser, hdenied]
  · intro db taskID htask hlist hdenied
    simp [TaskAssgineeCreate, GetListSimplByTaskID, addNewAssigneeByID,
      htask, hlist, huser, hdenied]
  · intro t current us
    induction us with
    | nil => intro db _; simp [addAssigneesLoop]
    | cons v rest ih =>
      intro db hdenied
      by_cases hc : v ∈ current
      · simpa [addAssigneesLoop, hc] using ih db hdenied
      · have hc' : current.contains v = false := by simpa using hc
        by_cases hv : env.userExists v = true
        · by_cases hr : env.canRead t.listID v = true
          · have hvu : v ≠ u := by
              intro h
              rw [h] at hr
              rw [hr] at hdenied
              exact Bool.true_eq_false.mp hdenied
            have hcount : List.count (t.id, u) [(t.id, v)] = 0 := by
              rw [List.count_eq_zero]
              simp only [List.mem_singleton, Prod.mk.injEq, not_and]
              intro _ h
              exact hvu h.symm
            have hunfold : addAssigneesLoop env t current (v :: rest) db =
                addAssigneesLoop env t current rest
                  (updateListLastUpdated
                    { db with rows := db.rows ++ [(t.id, v)] } t.listID) := by
              simp [addAssigneesLoop, hc, addNewAssigneeByID, hv, hr]
            rw [hunfold, ih _ hdenied]
            simp [updateListLastUpdated, List.count_append, hcount]
          · have hr' : env.canRead t.listID v = false :=
              Bool.eq_false_iff.mpr hr
            simp [addAssigneesLoop, hc, addNewAssigneeByID, hv, hr']
        · have hv' : env.userExists v = false := Bool.eq_false_iff.mpr hv
          simp [addAssigneesLoop, hc, addNewAssigneeByID, hv']

/-- C7 witness: user 2 exists in the test environment, and the theorem
applies to it. -/
theorem C7_accessDenied_witness :
    envT.userExists 2 = true ∧
    ((∀ (db : DB) (t : Task) (listID : Int), envT.canRead listID 2 = false →
      addNewAssigneeByID envT db t listID 2 =
        Except.error (ModelError.userDoesNotHaveAccessToList listID 2)) ∧
    (∀ (db : DB) (taskID : Int), envT.taskExists taskID = true →
      envT.listExists (envT.listOfTask taskID) = true →
      envT.canRead (envT.listOfTask taskID) 2 = false →
      TaskAssgineeCreate envT db taskID 2 =
        (db, some (ModelError.userDoesNotHaveAccessToList
          (envT.listOfTask taskID) 2))) ∧
    (∀ (t : Task) (current us : List Int) (db : DB),
      envT.canRead t.listID 2 = false →
      (addAssigneesLoop envT t current us db).1.rows.count (t.id, 2) =
        db.rows.count (t.id, 2))) :=
  ⟨by decide, C7_accessDenied envT 2 (by decide)⟩

/-- C8: a bulk replace with empty desired set and empty current set is a
guaranteed non-mutating success: the database — rows and timestamp log —
is returned unchanged. -/
theorem C8_emptyEmptyNoop (env : Env) (db : DB) (taskID : Int)
    (htask : env.taskExists taskID = true)
    (hcur : getRawTaskAssigneesForTasks env db taskID = []) :
    BulkAssigneesCreate env db taskID [] = (db, none) := by
  simp [BulkAssigneesCreate, updateTaskAssignees, htask, hcur,
    Session.commit]

/-- C8 witness: for the concrete database whose only row belongs to task 2,
task 1's current set is empty and the theorem applies. -/
theorem C8_emptyEmptyNoop_witness :
    envT.taskExists 1 = true ∧
    getRawTaskAssigneesForTasks envT { rows := [(2, 9)], touches := [] } 1 = [] ∧
    BulkAssigneesCreate envT { rows := [(2, 9)], touches := [] } 1 [] =
      ({ rows := [(2, 9)], touches := [] }, none) :=
  ⟨by decide, by decide,
    C8_emptyEmptyNoop envT { rows := [(2, 9)], touches := [] } 1
      (by decide) (by decide)⟩

/-- C9: deleting a (task, user) pair that is not assigned succeeds — the
row delete matches nothing and is not an error — leaving the rows exactly
as they were (only the timestamp log grows by the marker update the
operation always performs). -/
theorem C9_idempotentRemove (env : Env) (db : DB) (taskID userID : Int)
    (htask : env.taskExists taskID = true)
    (habsent : (taskID, userID) ∉ db.rows) :
    TaskAssgineeDelete env db taskID userID =
      ({ rows := db.rows,
         touches := db.touches ++ [env.listOfTask taskID] }, none) := by
  simp only [TaskAssgineeDelete, updateListByTaskID, updateListLastUpdated,
    htask, Bool.not_true, Bool.false_eq_true, if_false, Prod.mk.injEq,
    DB.mk.injEq, and_true, List.filter_eq_self]
  intro a hab
  by_cases ha : a.1 = taskID
  · by_cases hb : a.2 = userID
    · exfalso
      apply habsent
      have hrw : a = (taskID, userID) := by
        obtain ⟨x, y⟩ := a
        simp only at ha hb
        rw [ha, hb]
      rwa [hrw] at hab
    · simp [ha, hb]
  · simp [ha]

/-- C9 witness: deleting the unassigned pair (1, 3) from a database that
only has the pair (1, 1). -/
theorem C9_idempotentRemove_witness :
    envT.taskExists 1 = true ∧
    (1, 3) ∉ ({ rows := [(1, 1)], touches := [] } : DB).rows ∧
    TaskAssgineeDelete envT { rows := [(1, 1)], touches := [] } 1 3 =
      ({ rows := [(1, 1)], touches := [10] }, none) :=
  ⟨by decide, by decide,
    C9_idempotentRemove envT { rows := [(1, 1)], touches := [] } 1 3
      (by decide) (by decide)⟩

/-- C10: every single-remove call that does not fail touches the parent
container's last-modified marker exactly once — including calls that
matched no row and deleted nothing. -/
theorem C10_deleteAlwaysTouches (env : Env) (db : DB) (taskID userID : Int)
    (hok : (TaskAssgineeDelete env db taskID userID).2 = none) :
    (TaskAssgineeDelete env db taskID userID).1.touches =
      db.touches ++ [env.listOfTask taskID] := by
  by_cases htask : env.taskExists taskID = true
  · simp [TaskAssgineeDelete, updateListByTaskID, updateListLastUpdated,
      htask]
  · have htask' : env.taskExists taskID = false := Bool.eq_false_iff.mpr htask
    simp [TaskAssgineeDelete, updateListByTaskID, htask'] at hok

/-- C10 witness: the no-op delete of the absent pair (1, 3) succeeds and
still appends one touch of list 10. -/
theorem C10_deleteAlwaysTouches_witness :
    (TaskAssgineeDelete envT { rows := [(1, 1)], touches := [] } 1 3).2 =
      none ∧
    (TaskAssgineeDelete envT { rows := [(1, 1)], touches := [] } 1 3).1.touches =
      [] ++ [envT.listOfTask 1] :=
  ⟨by decide,
    C10_deleteAlwaysTouches envT { rows := [(1, 1)], touches := [] } 1 3
      (by decide)⟩

/-- C5 counterexample: inserting the already-existing pair (1, 1) through
the single-add operation does not fail with a conflict — it succeeds and
the table now holds the pair twice.  The uniqueness invariant claimed for
the pair (task id, user id) does not hold. -/
theorem C5_counterexample :
    TaskAssgineeCreate envT { rows := [(1, 1)], touches := [] } 1 1 =
      ({ rows := [(1, 1), (1, 1)], touches := [0] }, none) ∧
    (TaskAssgineeCreate envT
      { rows := [(1, 1)], touches := [] } 1 1).1.rows.count (1, 1) = 2 := by
  exact ⟨by decide, by decide⟩

/-- C5 amended: the store does not enforce uniqueness of the (task, user)
pair.  A single add of an already-assigned principal that passes the
checks succeeds, appends a second identical row — so the pair now occurs
more than once — and touches the last-modified marker of list 0 (the
zero-valued ListID of the Task value built by TaskAssginee.Create). -/
theorem C5_amended (env : Env) (db : DB) (taskID userID : Int)
    (htask : env.taskExists taskID = true)
    (hlist : env.listExists (env.listOfTask taskID) = true)
    (huser : env.userExists userID = true)
    (hread : env.canRead (env.listOfTask taskID) userID = true)
    (hmem : (taskID, userID) ∈ db.rows) :
    TaskAssgineeCreate env db taskID userID =
      ({ rows := db.rows ++ [(taskID, userID)],
         touches := db.touches ++ [0] }, none) ∧
    1 < (TaskAssgineeCreate env db taskID userID).1.rows.count
      (taskID, userID) := by
  have heq : TaskAssgineeCreate env db taskID userID =
      ({ rows := db.rows ++ [(taskID, userID)],
         touches := db.touches ++ [0] }, none) := by
    simp [TaskAssgineeCreate, GetListSimplByTaskID, addNewAssigneeByID,
      updateListLastUpdated, htask, hlist, huser, hread]
  refine ⟨heq, ?_⟩
  rw [heq]
  simp only [List.count_append]
  have h1 : 0 < db.rows.count (taskID, userID) := List.count_pos_iff.mpr hmem
  have h2 : ([(taskID, userID)] : List (Int × Int)).count (taskID, userID) = 1 := by
    simp
  omega

/-- C5 amended witness: the duplicate add of pair (1, 1). -/
theorem C5_amended_witness :
    envT.taskExists 1 = true ∧
    envT.listExists (envT.listOfTask 1) = true ∧
    envT.userExists 1 = true ∧
    envT.canRead (envT.listOfTask 1) 1 = true ∧
    (1, 1) ∈ ({ rows := [(1, 1)], touches := [] } : DB).rows ∧
    (TaskAssgineeCreate envT { rows := [(1, 1)], touches := [] } 1 1 =
      ({ rows := [(1, 1), (1, 1)], touches := [0] }, none) ∧
    1 < (TaskAssgineeCreate envT
      { rows := [(1, 1)], touches := [] } 1 1).1.rows.count (1, 1)) :=
  ⟨by decide, by decide, by decide, by decide, by decide,
    C5_amended envT { rows := [(1, 1)], touches := [] } 1 1
      (by decide) (by decide) (by decide) (by decide) (by decide)⟩

/-- C2 counterexample: with desired equal to the non-empty current set
(both are just user 1), the delta is empty in both directions, the call
succeeds — and the container's last-modified marker is still touched once
(the unconditional touch at the end of the general path), refuting the
claim that an empty delta never touches the timestamp. -/
theorem C2_counterexample :
    (BulkAssigneesCreate envT { rows := [(1, 1)], touches := [] } 1 [1]).2 =
      none ∧
    toAddOf envT { rows := [(1, 1)], touches := [] } 1 [1] = [] ∧
    toRemoveOf envT { rows := [(1, 1)], touches := [] } 1 [1] = [] ∧
    (BulkAssigneesCreate envT
      { rows := [(1, 1)], touches := [] } 1 [1]).1.touches = [10] := by
  exact ⟨by decide, by decide, by decide, by decide⟩

/-- C2 amended: on a bulk replace satisfying the success preconditions,
the container's marker is not touched at all when the desired set is
empty (fast path and empty-to-empty), and is touched 1 + |toAdd| times
when the desired set is non-empty — once per inserted row plus one
unconditional closing touch, hence exactly once even when the delta is
empty (desired equal to current). -/
theorem C2_amended (env : Env) (db : DB) (taskID : Int) (S : List Int)
    (htask : env.taskExists taskID = true)
    (hlist : env.listExists (env.listOfTask taskID) = true)
    (hrows : ∀ r ∈ db.rows, r.1 = taskID → env.userExists r.2 = true)
    (hS : ∀ u ∈ S, env.userExists u = true ∧
      env.canRead (env.listOfTask taskID) u = true) :
    (BulkAssigneesCreate env db taskID S).2 = none ∧
    (BulkAssigneesCreate env db taskID S).1.touches =
      db.touches ++
        (if S.isEmpty then [] else
          List.replicate ((toAddOf env db taskID S).length)
              (env.listOfTask taskID) ++
            [env.listOfTask taskID]) := by
  have hspec := BulkAssigneesCreate_spec env db taskID S htask hlist hrows hS
  exact ⟨by rw [hspec], by rw [hspec]⟩

/-- C2 amended witness: current [1], desired [1, 3] — one insert, so the
marker is touched twice. -/
theorem C2_amended_witness :
    envT.taskExists 1 = true ∧
    envT.listExists (envT.listOfTask 1) = true ∧
    (∀ r ∈ ({ rows := [(1, 1)], touches := [] } : DB).rows, r.1 = 1 →
      envT.userExists r.2 = true) ∧
    (∀ u ∈ ([1, 3] : List Int), envT.userExists u = true ∧
      envT.canRead (envT.listOfTask 1) u = true) ∧
    ((BulkAssigneesCreate envT { rows := [(1, 1)], touches := [] } 1
        [1, 3]).2 = none ∧
      (BulkAssigneesCreate envT { rows := [(1, 1)], touches := [] } 1
        [1, 3]).1.touches =
        ([] : List Int) ++
          (if ([1, 3] : List Int).isEmpty then [] else
            List.replicate
                ((toAddOf envT { rows := [(1, 1)], touches := [] } 1
                  [1, 3]).length) (envT.listOfTask 1) ++
              [envT.listOfTask 1])) :=
  ⟨by decide, by decide, by decide, by decide,
    C2_amended envT { rows := [(1, 1)], touches := [] } 1 [1, 3]
      (by decide) (by decide) (by decide) (by decide)⟩

/-- C3: after a bulk replace whose desired users all pass the checks, the
call succeeds; the persisted rows are the old rows minus exactly the
remove-delta (current minus desired) plus exactly the add-delta (desired
minus current); the persisted assignment set equals the desired list as a
set; and rows of principals present in both sets are neither deleted nor
re-inserted (their row count is unchanged). -/
theorem C3_setEquivalence (env : Env) (db : DB) (taskID : Int)
    (S : List Int)
    (htask : env.taskExists taskID = true)
    (hlist : env.listExists (env.listOfTask taskID) = true)
    (hrows : ∀ r ∈ db.rows, r.1 = taskID → env.userExists r.2 = true)
    (hS : ∀ u ∈ S, env.userExists u = true ∧
      env.canRead (env.listOfTask taskID) u = true) :
    (BulkAssigneesCreate env db taskID S).2 = none ∧
    ((BulkAssigneesCreate env db taskID S).1.rows =
      db.rows.filter (fun r =>
        !((toRemoveOf env db taskID S).contains r.2 && r.1 == taskID)) ++
      (toAddOf env db taskID S).map (fun u => (taskID, u))) ∧
    (∀ u : Int,
      u ∈ assignedUsers (BulkAssigneesCreate env db taskID S).1 taskID ↔
        u ∈ S) ∧
    (∀ u : Int, u ∈ getRawTaskAssigneesForTasks env db taskID → u ∈ S →
      (BulkAssigneesCreate env db taskID S).1.rows.count (taskID, u) =
        db.rows.count (taskID, u)) := by
  have hspec := BulkAssigneesCreate_spec env db taskID S htask hlist hrows hS
  refine ⟨by rw [hspec], by rw [hspec], ?_, ?_⟩
  · intro u
    rw [mem_assignedUsers]
    exact bulk_mem_iff env db taskID S htask hlist hrows hS u
  · intro u hcur huS
    rw [hspec]
    simp only [List.count_append]
    have h1 : ((toAddOf env db taskID S).map
        (fun u => (taskID, u))).count (taskID, u) = 0 := by
      rw [List.count_eq_zero]
      intro hmem
      obtain ⟨v, hv, heq⟩ := List.mem_map.mp hmem
      have hvu : v = u := by
        have h2 := congrArg Prod.snd heq
        simpa using h2
      subst hvu
      rw [toAddOf] at hv
      have h3 := (List.mem_filter.mp hv).2
      simp only [Bool.not_eq_eq_eq_not, Bool.not_true] at h3
      exact absurd hcur (by simpa using h3)
    have hnrem : u ∉ toRemoveOf env db taskID S := not_mem_toRemoveOf huS
    have h2 : (db.rows.filter (fun r =>
        !((toRemoveOf env db taskID S).contains r.2 && r.1 == taskID))).count
          (taskID, u) = db.rows.count (taskID, u) := by
      apply List.count_filter
      simp [hnrem]
    rw [h1, h2]
    omega

/-- C3 witness: current [1], desired [1, 3] — user 1 kept untouched,
user 3 added, final set [1, 3]. -/
theorem C3_setEquivalence_witness :
    envT.taskExists 1 = true ∧
    envT.listExists (envT.listOfTask 1) = true ∧
    (∀ r ∈ ({ rows := [(1, 1)], touches := [] } : DB).rows, r.1 = 1 →
      envT.userExists r.2 = true) ∧
    (∀ u ∈ ([1, 3] : List Int), envT.userExists u = true ∧
      envT.canRead (envT.listOfTask 1) u = true) ∧
    ((BulkAssigneesCreate envT { rows := [(1, 1)], touches := [] } 1
        [1, 3]).2 = none ∧
      ((BulkAssigneesCreate envT { rows := [(1, 1)], touches := [] } 1
        [1, 3]).1.rows =
        ({ rows := [(1, 1)], touches := [] } : DB).rows.filter (fun r =>
          !((toRemoveOf envT { rows := [(1, 1)], touches := [] } 1
            [1, 3]).contains r.2 && r.1 == 1)) ++
        (toAddOf envT { rows := [(1, 1)], touches := [] } 1 [1, 3]).map
          (fun u => (1, u))) ∧
      (∀ u : Int,
        u ∈ assignedUsers (BulkAssigneesCreate envT
          { rows := [(1, 1)], touches := [] } 1 [1, 3]).1 1 ↔
          u ∈ ([1, 3] : List Int)) ∧
      (∀ u : Int,
        u ∈ getRawTaskAssigneesForTasks envT
          { rows := [(1, 1)], touches := [] } 1 → u ∈ ([1, 3] : List Int) →
        (BulkAssigneesCreate envT { rows := [(1, 1)], touches := [] } 1
          [1, 3]).1.rows.count (1, u) =
          ({ rows := [(1, 1)], touches := [] } : DB).rows.count (1, u))) :=
  ⟨by decide, by decide, by decide, by decide,
    C3_setEquivalence envT { rows := [(1, 1)], touches := [] } 1 [1, 3]
      (by decide) (by decide) (by decide) (by decide)⟩

/-- C4 counterexample: current [1, 2, 3], desired [] — the fast path
deletes everything in one statement and succeeds, but the container's
last-modified marker is NOT touched (the fast path returns before the
closing touch), refuting the claim that the timestamp is touched once. -/
theorem C4_counterexample :
    (BulkAssigneesCreate envT
      { rows := [(1, 1), (1, 2), (1, 3)], touches := [] } 1 []).2 = none ∧
    (BulkAssigneesCreate envT
      { rows := [(1, 1), (1, 2), (1, 3)], touches := [] } 1 []).1.rows =
      [] ∧
    (BulkAssigneesCreate envT
      { rows := [(1, 1), (1, 2), (1, 3)], touches := [] } 1 []).1.touches =
      [] := by
  exact ⟨by decide, by decide, by decide⟩

/-- C4 amended: when the desired set is empty and the current set is
non-empty, updateTaskAssignees queues exactly one delete-everything
statement on the session and performs no insert and no timestamp touch;
the committed bulk replace removes every row of the task and leaves the
timestamp log unchanged. -/
theorem C4_amended (env : Env) (db : DB) (taskID : Int)
    (htask : env.taskExists taskID = true)
    (hcur : getRawTaskAssigneesForTasks env db taskID ≠ []) :
    (∀ (s : Session) (t : Task),
      getRawTaskAssigneesForTasks env db t.id ≠ [] →
      updateTaskAssignees env db s t [] =
        (db,
         { pendingDeletes := s.pendingDeletes ++ [DeleteOp.byTask t.id] },
         { t with assignees := [] }, none)) ∧
    BulkAssigneesCreate env db taskID [] =
      ({ rows := db.rows.filter (fun r => !(r.1 == taskID)),
         touches := db.touches }, none) := by
  constructor
  · intro s t hct
    have hct' : (getRawTaskAssigneesForTasks env db t.id).isEmpty = false := by
      simpa using hct
    simp [updateTaskAssignees, hct', setTaskAssignees]
  · have hcur' : (getRawTaskAssigneesForTasks env db taskID).isEmpty =
        false := by
      simpa using hcur
    simp [BulkAssigneesCreate, updateTaskAssignees, htask, hcur',
      Session.commit, applyDelete, setTaskAssignees]

/-- C4 amended witness: unassigning everyone from task 1 with current
[1, 2, 3]. -/
theorem C4_amended_witness :
    envT.taskExists 1 = true ∧
    getRawTaskAssigneesForTasks envT
      { rows := [(1, 1), (1, 2), (1, 3)], touches := [] } 1 ≠ [] ∧
    BulkAssigneesCreate envT
        { rows := [(1, 1), (1, 2), (1, 3)], touches := [] } 1 [] =
      ({ rows := List.filter (fun r => !(r.1 == 1))
           [(1, 1), (1, 2), (1, 3)],
         touches := [] }, none) :=
  ⟨by decide, by decide,
    (C4_amended envT { rows := [(1, 1), (1, 2), (1, 3)], touches := [] } 1
      (by decide) (by decide)).2⟩

/-- C6 counterexample: running the same bulk replace (desired [1], current
already [1]) twice in succession leaves the rows alone but the second call
touches the container timestamp again — the timestamp log after the
second call differs from the log after the first call, refuting strict
idempotence. -/
theorem C6_counterexample :
    (BulkAssigneesCreate envT { rows := [(1, 1)], touches := [] } 1 [1]).2 =
      none ∧
    (BulkAssigneesCreate envT
      (BulkAssigneesCreate envT
        { rows := [(1, 1)], touches := [] } 1 [1]).1 1 [1]).2 = none ∧
    (BulkAssigneesCreate envT
      (BulkAssigneesCreate envT
        { rows := [(1, 1)], touches := [] } 1 [1]).1 1 [1]).1.touches ≠
      (BulkAssigneesCreate envT
        { rows := [(1, 1)], touches := [] } 1 [1]).1.touches := by
  exact ⟨by decide, by decide, by decide⟩

/-- C6 amended: repeating a bulk replace satisfying the success
preconditions succeeds and leaves the persisted rows unchanged, but it is
only timestamp-idempotent for an empty desired set: a non-empty desired
set makes the second call touch the container marker once more. -/
theorem C6_amended (env : Env) (db : DB) (taskID : Int) (S : List Int)
    (htask : env.taskExists taskID = true)
    (hlist : env.listExists (env.listOfTask taskID) = true)
    (hrows : ∀ r ∈ db.rows, r.1 = taskID → env.userExists r.2 = true)
    (hS : ∀ u ∈ S, env.userExists u = true ∧
      env.canRead (env.listOfTask taskID) u = true) :
    (BulkAssigneesCreate env
      (BulkAssigneesCreate env db taskID S).1 taskID S).2 = none ∧
    (BulkAssigneesCreate env
      (BulkAssigneesCreate env db taskID S).1 taskID S).1.rows =
      (BulkAssigneesCreate env db taskID S).1.rows ∧
    (BulkAssigneesCreate env
      (BulkAssigneesCreate env db taskID S).1 taskID S).1.touches =
      (BulkAssigneesCreate env db taskID S).1.touches ++
        (if S.isEmpty then [] else [env.listOfTask taskID]) := by
  have hrows1 := bulk_rows_users env db taskID S htask hlist hrows hS
  have hspec2 := BulkAssigneesCreate_spec env
    (BulkAssigneesCreate env db taskID S).1 taskID S htask hlist hrows1 hS
  have htr2 : toRemoveOf env
      (BulkAssigneesCreate env db taskID S).1 taskID S = [] := by
    rw [toRemoveOf]
    apply List.filter_eq_nil_iff.mpr
    intro a ha
    have haS : a ∈ S :=
      (mem_getRaw_bulk env db taskID S htask hlist hrows hS a).mp ha
    simp [haS]
  have hta2 : toAddOf env
      (BulkAssigneesCreate env db taskID S).1 taskID S = [] := by
    rw [toAddOf]
    apply List.filter_eq_nil_iff.mpr
    intro a ha
    have hacur : a ∈ getRawTaskAssigneesForTasks env
        (BulkAssigneesCreate env db taskID S).1 taskID :=
      (mem_getRaw_bulk env db taskID S htask hlist hrows hS a).mpr ha
    simp [hacur]
  rw [htr2, hta2] at hspec2
  refine ⟨by rw [hspec2], ?_, ?_⟩
  · rw [hspec2]
    simp
  · rw [hspec2]
    simp

/-- C6 amended witness: current [1], desired [1, 3], run twice. -/
theorem C6_amended_witness :
    envT.taskExists 1 = true ∧
    envT.listExists (envT.listOfTask 1) = true ∧
    (∀ r ∈ ({ rows := [(1, 1)], touches := [] } : DB).rows, r.1 = 1 →
      envT.userExists r.2 = true) ∧
    (∀ u ∈ ([1, 3] : List Int), envT.userExists u = true ∧
      envT.canRead (envT.listOfTask 1) u = true) ∧
    ((BulkAssigneesCreate envT
      (BulkAssigneesCreate envT
        { rows := [(1, 1)], touches := [] } 1 [1, 3]).1 1 [1, 3]).2 =
      none ∧
    (BulkAssigneesCreate envT
      (BulkAssigneesCreate envT
        { rows := [(1, 1)], touches := [] } 1 [1, 3]).1 1 [1, 3]).1.rows =
      (BulkAssigneesCreate envT
        { rows := [(1, 1)], touches := [] } 1 [1, 3]).1.rows ∧
    (BulkAssigneesCreate envT
      (BulkAssigneesCreate envT
        { rows := [(1, 1)], touches := [] } 1 [1, 3]).1 1 [1, 3]).1.touches =
      (BulkAssigneesCreate envT
        { rows := [(1, 1)], touches := [] } 1 [1, 3]).1.touches ++
        (if ([1, 3] : List Int).isEmpty then [] else [envT.listOfTask 1])) :=
  ⟨by decide, by decide, by decide, by decide,
    C6_amended envT { rows := [(1, 1)], touches := [] } 1 [1, 3]
      (by decide) (by decide) (by decide) (by decide)⟩

end VikunjaAssignees
